import Mathlib

/-!
A shallow embedding of the drum-box step sequencer core
(`src/js/state.js`, `src/js/notation.js`, and the revision-comparing
render gate of `app.js`), together with theorems checking the
natural-language specification against the embedded code.

Conventions of the embedding:
* JS numbers that the code immediately floors/validates are embedded as
  `Int` (or `Option ℚ` where the code distinguishes finite non-integers
  from integers via `Math.floor` / `Number.isInteger`; `none` stands for
  a non-finite number such as `NaN`).
* JS arrays of step flags are `List Bool`; reading out of range yields
  `false` (JS `undefined` is falsy), written `List.getD _ _ false`.
* The `pattern` object is an association list `List (String × List Bool)`.
* The `while` loops of `buildVoice` are embedded with an explicit fuel
  argument; the loops provably advance their counters each iteration, so
  a fuel of `STEPS_PER_BAR + 1 = 17` is never exhausted on the loops the
  source can reach.  The fuel only serves to make the definitions total.
-/

namespace DrumBox

/-! ## notation.js constants and helpers -/

/-- `const STEPS_PER_BAR = 16;` -/
def STEPS_PER_BAR : Nat := 16

/-- `const STEPS_PER_BEAT = 4;` -/
def STEPS_PER_BEAT : Nat := 4

/-- `const GREEDY = [16, 8, 4, 2, 1];` -/
def GREEDY : List Nat := [16, 8, 4, 2, 1]

/-- `STEP_TO_VF.get(partSteps) || '16'` — the step-length → VexFlow
duration map, with the `|| '16'` fallback for an absent key. -/
def stepToVF (s : Nat) : String :=
  if s = 16 then "w"
  else if s = 8 then "h"
  else if s = 4 then "q"
  else if s = 2 then "8"
  else if s = 1 then "16"
  else "16"

/-- `normalize16(arr)`: a fresh 16-slot array holding the truthiness of
the first 16 entries of the input (missing entries read as falsy). -/
def normalize16 (arr : List Bool) : List Bool :=
  (List.range STEPS_PER_BAR).map (fun i => arr.getD i false)

/-- `nextHitIndex(steps, from)`: the first index `i ∈ [from, 16)` with
`steps[i]` truthy, else `STEPS_PER_BAR`. -/
def nextHitIndex (steps : List Bool) (fromIdx : Nat) : Nat :=
  match (List.range' fromIdx (STEPS_PER_BAR - fromIdx)).find?
      (fun i => steps.getD i false) with
  | some i => i
  | none => STEPS_PER_BAR

/-- `beatEnd(pos)`: end (exclusive) of the beat containing `pos`. -/
def beatEnd (pos : Nat) : Nat :=
  min STEPS_PER_BAR ((pos / STEPS_PER_BEAT + 1) * STEPS_PER_BEAT)

/-- `decomposeSteps(len)`: greedy largest-first decomposition of `len`
over `GREEDY`; the JS inner `while (rem >= s)` pushes `s` exactly
`rem / s` times and leaves `rem % s`. -/
def decomposeSteps (len : Nat) : List Nat :=
  (GREEDY.foldl
    (fun acc s => (acc.1 ++ List.replicate (acc.2 / s) s, acc.2 % s))
    (([] : List Nat), len)).1

/-- One notation event, as produced for a `VF.StaveNote`: its start step
(the value of `cursor` when the note is created), its length in steps,
the VexFlow duration string, whether it is a rest (`!isHit`), and
whether it is a continuation piece of a sustained hit
(`isHit && hitPieces.length > 0`). -/
structure NoteEvent where
  start : Nat
  lenSteps : Nat
  duration : String
  isRest : Bool
  isContinuation : Bool
deriving DecidableEq, Repr

/-- The `for (const partSteps of parts)` body of `buildVoice`: emits one
event per part, advancing `cursor`, decrementing `remaining`, and
growing the `hitPieces` count (`pieces`) when the segment is a hit.
Returns the emitted events and the updated `(cursor, remaining, pieces)`. -/
def emitParts (isHit : Bool) :
    List Nat → Nat → Nat → Nat → List NoteEvent × Nat × Nat × Nat
  | [], cursor, remaining, pieces => ([], cursor, remaining, pieces)
  | p :: rest, cursor, remaining, pieces =>
    let e : NoteEvent :=
      { start := cursor
        lenSteps := p
        duration := stepToVF p
        isRest := !isHit
        isContinuation := isHit && !(pieces == 0) }
    let r := emitParts isHit rest (cursor + p) (remaining - p)
      (if isHit then pieces + 1 else pieces)
    (e :: r.1, r.2)

/-- The `while (remaining > 0)` loop of `buildVoice`: clips the current
segment at the next beat boundary, greedily decomposes the chunk
(`.filter(s => s <= 4)` as in the source), and emits its parts.  `fuel`
bounds the recursion; the loop terminates within `STEPS_PER_BAR + 1`
iterations because each chunk the source reaches is nonempty. -/
def emitChunkLoop (isHit : Bool) : Nat → Nat → Nat → Nat → List NoteEvent
  | _, _, _, 0 => []
  | cursor, remaining, pieces, fuel + 1 =>
    if remaining = 0 then []
    else
      let chunk := min remaining (beatEnd cursor - cursor)
      let parts := (decomposeSteps chunk).filter (fun s => s ≤ 4)
      let r := emitParts isHit parts cursor remaining pieces
      r.1 ++ emitChunkLoop isHit r.2.1 r.2.2.1 r.2.2.2 fuel

/-- The outer `while (pos < STEPS_PER_BAR)` loop of `buildVoice`: a hit
at `pos` sustains until the next hit (or bar end); a rest run extends to
the next hit.  The segment is emitted beat-chunk by beat-chunk with a
fresh `hitPieces` count, then `pos` jumps to `segEnd` (or `pos + 1` in
the — unreachable — `segLen === 0` branch, kept for faithfulness). -/
def buildVoiceLoop (steps : List Bool) : Nat → Nat → List NoteEvent
  | _, 0 => []
  | pos, fuel + 1 =>
    if pos < STEPS_PER_BAR then
      let isHit := steps.getD pos false
      let segEnd :=
        if isHit then nextHitIndex steps (pos + 1) else nextHitIndex steps pos
      let segLen := segEnd - pos
      if segLen = 0 then buildVoiceLoop steps (pos + 1) fuel
      else
        emitChunkLoop isHit pos segLen 0 (STEPS_PER_BAR + 1) ++
          buildVoiceLoop steps segEnd fuel
    else []

/-- `buildVoice(inst, steps)` restricted to the event content it feeds
into the voice (the instrument only picks the stave pitch). -/
def buildVoice (steps : List Bool) : List NoteEvent :=
  buildVoiceLoop steps 0 (STEPS_PER_BAR + 1)

/-- The per-track transcription pipeline of `draw`:
`buildVoice(inst, normalize16(pattern[inst]))`.  Note it takes no step
count: the declared `steps` of the state never reaches `buildVoice`. -/
def transcribe (arr : List Bool) : List NoteEvent :=
  buildVoice (normalize16 arr)

/-! ## state.js: data model and helpers -/

/-- One entry of the `tracks` list (`{ id, label, shortLabel? }`). -/
structure Track where
  id : String
  label : String
  shortLabel : Option String := none
deriving DecidableEq, Repr

/-- `DEFAULT_TRACKS` from `state.js`. -/
def DEFAULT_TRACKS : List Track :=
  [⟨"hh", "Hi-hat", none⟩, ⟨"sn", "Redoblante", none⟩, ⟨"bd", "Bombo", none⟩]

/-- The JS `String#trim`: strip whitespace from both ends.  (Embedded
over the character list because the library trim is defined by
well-founded recursion and does not evaluate inside the kernel.) -/
def jsTrim (s : String) : String :=
  String.mk
    (((s.data.dropWhile Char.isWhitespace).reverse.dropWhile
        Char.isWhitespace).reverse)

/-- The association-list lookup standing for `pattern[id]`. -/
def patLookup (p : List (String × List Bool)) (id : String) :
    Option (List Bool) :=
  match p with
  | [] => none
  | (k, v) :: rest => if k = id then some v else patLookup rest id

/-- In-place overwrite of `pattern[id]` when the key exists (the source
only assigns through an existing key). -/
def patSet (p : List (String × List Bool)) (id : String) (v : List Bool) :
    List (String × List Bool) :=
  match p with
  | [] => []
  | (k, a) :: rest =>
    if k = id then (k, v) :: rest else (k, a) :: patSet rest id v

/-- The JS assignment `arr[i] = v`: overwrites in range, otherwise grows
the array, the fresh hole slots reading back as falsy. -/
def jsArraySet (l : List Bool) (i : Nat) (v : Bool) : List Bool :=
  if i < l.length then l.set i v
  else l ++ List.replicate (i - l.length) false ++ [v]

/-- `toBoolArray(arr, len)`: a fresh `len`-slot boolean array taking the
truthiness of the first `len` entries of the input. -/
def toBoolArray (l : List Bool) (len : Nat) : List Bool :=
  (List.range len).map (fun i => l.getD i false)

/-- The dedup-and-clean loop of `normalizeTracks`: drops entries whose
trimmed id is empty or already seen; an empty label falls back to the
id; an empty `shortLabel` is dropped (JS truthiness). -/
def normalizeTracksGo (seen : List String) : List Track → List Track
  | [] => []
  | t :: rest =>
    let id := jsTrim t.id
    if id = "" ∨ seen.contains id then normalizeTracksGo seen rest
    else
      { id := id
        label := if t.label = "" then id else t.label
        shortLabel :=
          match t.shortLabel with
          | some sl => if sl = "" then none else some sl
          | none => none } :: normalizeTracksGo (id :: seen) rest

/-- `normalizeTracks(tracks)`: clean the list, falling back to
`DEFAULT_TRACKS` when the input or the cleaned result is empty. -/
def normalizeTracks (ts : List Track) : List Track :=
  if ts.isEmpty then DEFAULT_TRACKS
  else
    let clean := normalizeTracksGo [] ts
    if clean.isEmpty then DEFAULT_TRACKS else clean

/-- `getTrackIds(tracks)`: trimmed ids, empty ones filtered out. -/
def getTrackIds (ts : List Track) : List String :=
  (ts.map (fun t => jsTrim t.id)).filter (fun s => ¬ s = "")

/-- `buildEmptyPattern(trackIds, steps)`. -/
def buildEmptyPattern (trackIds : List String) (steps : Nat) :
    List (String × List Bool) :=
  trackIds.map (fun id => (id, List.replicate steps false))

/-- `normalizePattern(inputPattern, tracks, steps)`: one correctly sized
boolean array per track, sourced from the input entry when present. -/
def normalizePattern (src : List (String × List Bool)) (tracks : List Track)
    (steps : Nat) : List (String × List Bool) :=
  tracks.map (fun t => (t.id, toBoolArray ((patLookup src t.id).getD []) steps))

/-- `computeSteps(beatsPerBar, stepsPerBeat, bars)`: `toPosInt` clamps
each factor to at least 1 (integer inputs are their own floor). -/
def computeSteps (beatsPerBar stepsPerBeat bars : Int) : Nat :=
  (max 1 beatsPerBar * max 1 stepsPerBeat * max 1 bars).toNat

/-- `resizePatternKeepNotes(prevPattern, tracks, prevSteps, nextSteps)`:
per track, a fresh all-false `nextSteps` array whose overlapping index
range `[0, min prevSteps nextSteps)` copies the old truthiness. -/
def resizePatternKeepNotes (prev : List (String × List Bool))
    (tracks : List Track) (prevSteps nextSteps : Nat) :
    List (String × List Bool) :=
  tracks.map (fun t =>
    (t.id,
      (List.range nextSteps).map (fun i =>
        if i < min prevSteps nextSteps then
          ((patLookup prev t.id).getD []).getD i false
        else false)))

/-- The clamp of `utils.js` restricted to finite numerics:
`Math.max(a, Math.min(b, num))`. -/
def clampNum (n a b : ℚ) : ℚ := max a (min b n)

/-- `x || d` on a numeric JS value: `0` (the only finite falsy number)
falls back to the default. -/
def jsOrDefault (n d : ℚ) : ℚ := if n = 0 then d else n

/-- The store state, with the fields of `_state` that carry data (the
`emit`ted events and subscriber set live outside the model). -/
structure DrumState where
  bpm : ℚ
  isPlaying : Bool
  currentStep : Int
  bars : Int
  beatsPerBar : Int
  stepsPerBeat : Int
  steps : Nat
  stepsPerBar : Int
  totalSteps : Nat
  subdivision : String
  countMode : String
  showBeatNumbersInCells : Bool
  tracks : List Track
  pattern : List (String × List Bool)
  patternRevision : Nat
deriving DecidableEq, Repr

/-- `ensureStateShape(s)`: full re-normalization run at the end of every
structural mutator. -/
def ensureStateShape (s : DrumState) : DrumState :=
  let tracks := normalizeTracks s.tracks
  let bars := max 1 s.bars
  let beatsPerBar := max 1 s.beatsPerBar
  let stepsPerBeat := max 1 s.stepsPerBeat
  let steps := computeSteps beatsPerBar stepsPerBeat bars
  let stepsPerBar := beatsPerBar * stepsPerBeat
  let bpm := clampNum (jsOrDefault s.bpm 90) 40 240
  let currentStep :=
    if s.currentStep < -1 ∨ (steps : Int) ≤ s.currentStep then -1
    else s.currentStep
  let countMode :=
    if s.countMode = "simple" ∨ s.countMode = "full" then s.countMode
    else "full"
  let patternRevision := s.patternRevision % 2 ^ 32
  { bpm := bpm
    isPlaying := s.isPlaying
    currentStep := currentStep
    bars := bars
    beatsPerBar := beatsPerBar
    stepsPerBeat := stepsPerBeat
    steps := steps
    stepsPerBar := stepsPerBar
    totalSteps := steps
    subdivision := toString stepsPerBar
    countMode := countMode
    showBeatNumbersInCells := s.showBeatNumbersInCells
    tracks := tracks
    pattern := normalizePattern s.pattern tracks steps
    patternRevision := patternRevision }

/-- The module-initialization `_state` of `state.js`. -/
def initialState : DrumState :=
  ensureStateShape
    { bpm := 90
      isPlaying := false
      currentStep := -1
      bars := 1
      beatsPerBar := 4
      stepsPerBeat := 4
      steps := 16
      stepsPerBar := 16
      totalSteps := 16
      subdivision := "16"
      countMode := "full"
      showBeatNumbersInCells := true
      tracks := DEFAULT_TRACKS
      pattern := buildEmptyPattern (DEFAULT_TRACKS.map (·.id)) 16
      patternRevision := 0 }

/-! ## state.js: mutators -/

/-- `touchPattern(reason)`: bump the revision with uint32 wrap
(`(rev + 1) >>> 0`); the emitted event leaves the state unchanged. -/
def touchPattern (s : DrumState) : DrumState :=
  { s with patternRevision := (s.patternRevision + 1) % 2 ^ 32 }

/-- A partial patch object passed to `set`; an absent key leaves the
corresponding field alone (`Object.assign`). -/
structure Patch where
  bpm : Option ℚ := none
  isPlaying : Option Bool := none
  currentStep : Option Int := none
  bars : Option Int := none
  beatsPerBar : Option Int := none
  stepsPerBeat : Option Int := none
  tracks : Option (List Track) := none
  pattern : Option (List (String × List Bool)) := none
deriving Repr

/-- `Object.assign(_state, patch)`. -/
def applyPatch (s : DrumState) (p : Patch) : DrumState :=
  { s with
    bpm := p.bpm.getD s.bpm
    isPlaying := p.isPlaying.getD s.isPlaying
    currentStep := p.currentStep.getD s.currentStep
    bars := p.bars.getD s.bars
    beatsPerBar := p.beatsPerBar.getD s.beatsPerBar
    stepsPerBeat := p.stepsPerBeat.getD s.stepsPerBeat
    tracks := p.tracks.getD s.tracks
    pattern := p.pattern.getD s.pattern }

/-- `set(patch)`: assign, re-normalize, resize with index preservation
when the step count or track-id list changed (a `structure` bump), and
otherwise bump on the mere presence of a `pattern` key in the patch. -/
def set (s : DrumState) (p : Patch) : DrumState :=
  let prevSteps := s.steps
  let prevPattern := s.pattern
  let prevTrackIds := getTrackIds s.tracks
  let s1 := ensureStateShape (applyPatch s p)
  if prevSteps ≠ s1.steps ∨ prevTrackIds ≠ getTrackIds s1.tracks then
    touchPattern (ensureStateShape
      { s1 with
        pattern := resizePatternKeepNotes prevPattern s1.tracks prevSteps
          s1.steps })
  else if p.pattern.isSome then touchPattern s1
  else s1

/-- `update(mutatorFn)`: like `set` but the change is an arbitrary state
transformer, and no revision bump happens in the non-structural branch
(beyond whatever the mutator itself wrote). -/
def update (s : DrumState) (mutator : DrumState → DrumState) : DrumState :=
  let prevSteps := s.steps
  let prevPattern := s.pattern
  let prevTrackIds := getTrackIds s.tracks
  let s1 := ensureStateShape (mutator s)
  if prevSteps ≠ s1.steps ∨ prevTrackIds ≠ getTrackIds s1.tracks then
    touchPattern (ensureStateShape
      { s1 with
        pattern := resizePatternKeepNotes prevPattern s1.tracks prevSteps
          s1.steps })
  else s1

/-- `resetPattern({keepPlayhead})`. -/
def resetPattern (s : DrumState) (keepPlayhead : Bool) : DrumState :=
  touchPattern (ensureStateShape
    { s with
      pattern := buildEmptyPattern (getTrackIds s.tracks) s.steps
      currentStep := if keepPlayhead then s.currentStep else -1 })

/-- `setPattern(nextPattern, {resetPlayhead})`. -/
def setPattern (s : DrumState) (next : List (String × List Bool))
    (resetPlayhead : Bool) : DrumState :=
  touchPattern (ensureStateShape
    { s with
      pattern := normalizePattern next s.tracks s.steps
      currentStep := if resetPlayhead then -1 else s.currentStep })

/-- `toggleStep(trackId, stepIndex, forceValue)`.  `stepIndex` is a JS
number: `none` stands for a non-finite value (whose `Math.floor` is not
an integer), `some q` for a finite one, floored by the source.  Returns
the updated state together with the JS return value (`false` on the
no-op paths, else the stored value after the write). -/
def toggleStep (s : DrumState) (trackId : String) (stepIndex : Option ℚ)
    (forceValue : Option Bool) : DrumState × Bool :=
  let id := jsTrim trackId
  match patLookup s.pattern id with
  | none => (s, false)
  | some arr =>
    match stepIndex with
    | none => (s, false)
    | some q =>
      let idx := Rat.floor q
      if idx < 0 ∨ (s.steps : Int) ≤ idx then (s, false)
      else
        let i := idx.toNat
        let prev := arr.getD i false
        let nextValue := forceValue.getD (!prev)
        let arr2 := jsArraySet arr i nextValue
        let s1 := { s with pattern := patSet s.pattern id arr2 }
        let ret := arr2.getD i false
        if prev ≠ ret then (touchPattern s1, ret) else (s1, ret)

/-- `setStep(trackId, stepIndex, value)` delegates to `toggleStep` with
the coerced boolean. -/
def setStep (s : DrumState) (trackId : String) (stepIndex : Option ℚ)
    (value : Bool) : DrumState × Bool :=
  toggleStep s trackId stepIndex (some value)

/-- `setCurrentStep(stepIndex)`: clamp to `-1` outside `[0, steps)`;
only the cursor field is written, and the notification is the distinct
`playhead` class. -/
def setCurrentStep (s : DrumState) (stepIndex : Option ℚ) :
    DrumState × Int :=
  let cs :=
    match stepIndex with
    | none => -1
    | some q =>
      let idx := Rat.floor q
      if 0 ≤ idx ∧ idx < (s.steps : Int) then idx else -1
  ({ s with currentStep := cs }, cs)

/-- `setBpm(bpm)`: `clamp(Number(bpm) || DEFAULT_BPM, 40, 240)`; the
notification is the distinct `tempo` class, no revision bump. -/
def setBpm (s : DrumState) (bpm : ℚ) : DrumState × ℚ :=
  let b := clampNum (jsOrDefault bpm 90) 40 240
  ({ s with bpm := b }, b)

/-- `setTracks(tracks, {preservePattern})`: replace the track list,
rebuild the pattern keyed by the new ids, carrying over old per-id
arrays when asked, and preserving by index if the step count changed. -/
def setTracks (s : DrumState) (tracks : List Track) (preservePattern : Bool) :
    DrumState :=
  let prevSteps := s.steps
  let prevPattern : List (String × List Bool) :=
    if preservePattern then s.pattern else []
  let tracks1 := normalizeTracks tracks
  let base := buildEmptyPattern (getTrackIds tracks1) s.steps
  let pat :=
    if preservePattern then
      tracks1.foldl
        (fun acc t =>
          match patLookup s.pattern t.id with
          | some arr => patSet acc t.id (toBoolArray arr s.steps)
          | none => acc)
        base
    else base
  let s1 := ensureStateShape { s with tracks := tracks1, pattern := pat }
  let s2 :=
    if prevSteps ≠ s1.steps then
      ensureStateShape
        { s1 with
          pattern := resizePatternKeepNotes prevPattern s1.tracks prevSteps
            s1.steps }
    else s1
  touchPattern s2

/-- The in-place mutations of `setResolution` before its final
`ensureStateShape`: an absent or non-finite config field keeps the
stored factor, a present one is floored and clamped to at least 1; the
step count is recomputed, the pattern resized with index preservation,
and the cursor dropped if it no longer fits. -/
def setResolutionPre (s : DrumState)
    (bars beatsPerBar stepsPerBeat : Option Int) : DrumState :=
  let nextBars := match bars with | some b => max 1 b | none => s.bars
  let nextBeatsPerBar :=
    match beatsPerBar with | some b => max 1 b | none => s.beatsPerBar
  let nextStepsPerBeat :=
    match stepsPerBeat with | some b => max 1 b | none => s.stepsPerBeat
  let steps1 := computeSteps nextBeatsPerBar nextStepsPerBeat nextBars
  { s with
    bars := nextBars
    beatsPerBar := nextBeatsPerBar
    stepsPerBeat := nextStepsPerBeat
    steps := steps1
    stepsPerBar := nextBeatsPerBar * nextStepsPerBeat
    totalSteps := steps1
    subdivision := toString (nextBeatsPerBar * nextStepsPerBeat)
    pattern := resizePatternKeepNotes s.pattern s.tracks s.steps steps1
    currentStep :=
      if (steps1 : Int) ≤ s.currentStep then -1 else s.currentStep }

/-- `setResolution({bars, beatsPerBar, stepsPerBeat})`: the mutations
above, then the final re-normalization and a structural bump. -/
def setResolution (s : DrumState) (bars beatsPerBar stepsPerBeat : Option Int) :
    DrumState :=
  touchPattern (ensureStateShape (setResolutionPre s bars beatsPerBar
    stepsPerBeat))

/-- The per-track transcription as invoked by `draw` through
`getPatternFromState`: the stored array for the instrument (missing
key ⇒ empty) normalized to 16 slots, then `buildVoice`. -/
def transcribeTrack (s : DrumState) (id : String) : List NoteEvent :=
  transcribe ((patLookup s.pattern id).getD [])

/-! ## app.js: the revision-comparing render gate

`renderNotation` (wrapped in `rafThrottle`, so it runs at most once per
display frame) reads the state, compares `patternRevision` with the
last value seen, and re-transcribes (calls `Notation.render`) only when
they differ.  One call of `renderGate` models the single gate run of
one display frame: it returns the updated last-seen revision and
whether a transcription was performed. -/
def renderGate (lastRev : Int) (s : DrumState) : Int × Bool :=
  if (s.patternRevision : Int) = lastRev then (lastRev, false)
  else ((s.patternRevision : Int), true)

/-! ## Concrete fixtures and the shape invariant -/

/-- The state reached from the default state by `toggleStep('bd', 0,
true)` then `toggleStep('sn', 4, true)` (the C1 scenario). -/
def scenarioState : DrumState :=
  (toggleStep (toggleStep initialState "bd" (some 0) (some true)).1
    "sn" (some 4) (some true)).1

/-- The rational `5/2`, written with explicit numerator and denominator
so that it evaluates inside the kernel: a finite, non-integer JS
number used as a step index. -/
def q52 : ℚ := ⟨5, 2, by norm_num, by norm_num⟩

/-- A 4-step one-track state holding the pattern `[1,0,1,0]` (the C4
resize fixture). -/
def s4 : DrumState :=
  ensureStateShape
    { initialState with
      tracks := [⟨"bd", "Bombo", none⟩]
      bars := 1, beatsPerBar := 4, stepsPerBeat := 1
      pattern := [("bd", [true, false, true, false])] }

/-- The shape invariant of claim C5: the step count is the product of
the resolution factors, every track listed in `tracks` has a pattern
entry of exactly `steps` booleans, the cursor lies in `[-1, steps)`,
and the tempo lies in `[40, 240]`. -/
abbrev WF (s : DrumState) : Prop :=
  1 ≤ s.bars ∧ 1 ≤ s.beatsPerBar ∧ 1 ≤ s.stepsPerBeat ∧
  (s.steps : Int) = s.bars * s.beatsPerBar * s.stepsPerBeat ∧
  (∀ t ∈ s.tracks, (patLookup s.pattern t.id).map List.length
    = some s.steps) ∧
  -1 ≤ s.currentStep ∧ s.currentStep < (s.steps : Int) ∧
  40 ≤ s.bpm ∧ s.bpm ≤ 240

/-! ## Helper lemmas about the embedded primitives -/

theorem getD_set_self (l : List Bool) (i : Nat) (v : Bool)
    (h : i < l.length) : (l.set i v).getD i false = v := by
  rw [List.getD_eq_getElem?_getD, List.getElem?_set_self h]
  rfl

theorem getD_jsArraySet_self (l : List Bool) (i : Nat) (v : Bool) :
    (jsArraySet l i v).getD i false = v := by
  unfold jsArraySet
  by_cases h : i < l.length
  · simp only [h, if_pos]
    exact getD_set_self l i v h
  · simp only [h, if_neg, not_false_iff]
    rw [List.getD_append_right _ _ _ _
      (by simp [List.length_replicate]; omega)]
    have h0 : i - (l ++ List.replicate (i - l.length) false).length = 0 := by
      simp [List.length_replicate]
      omega
    rw [h0]
    rfl

theorem length_jsArraySet_of_lt (l : List Bool) (i : Nat) (v : Bool)
    (h : i < l.length) : (jsArraySet l i v).length = l.length := by
  simp [jsArraySet, h]

theorem patLookup_patSet_self (p : List (String × List Bool)) (id : String)
    (v : List Bool) :
    patLookup (patSet p id v) id = (patLookup p id).map (fun _ => v) := by
  induction p with
  | nil => rfl
  | cons kv rest ih =>
    obtain ⟨k, a⟩ := kv
    by_cases h : k = id
    · simp [patSet, patLookup, h]
    · simp [patSet, patLookup, h, ih]

theorem patLookup_patSet_ne (p : List (String × List Bool)) (id k : String)
    (v : List Bool) (h : k ≠ id) :
    patLookup (patSet p id v) k = patLookup p k := by
  induction p with
  | nil => rfl
  | cons kv rest ih =>
    obtain ⟨k0, a⟩ := kv
    by_cases h0 : k0 = id
    · subst h0
      simp [patSet, patLookup, Ne.symm h]
    · by_cases h1 : k0 = k
      · simp [patSet, patLookup, h0, h1, h]
      · simp [patSet, patLookup, h0, h1, ih]

theorem patLookup_map_track (tracks : List Track)
    (f : String → List Bool) (t : Track) (ht : t ∈ tracks) :
    patLookup (tracks.map (fun u => (u.id, f u.id))) t.id = some (f t.id) := by
  induction tracks with
  | nil => cases ht
  | cons u rest ih =>
    by_cases h : u.id = t.id
    · simp [patLookup, h]
    · rcases List.mem_cons.mp ht with rfl | hmem
      · exact absurd rfl h
      · simp [patLookup, h, ih hmem]

theorem length_toBoolArray (l : List Bool) (n : Nat) :
    (toBoolArray l n).length = n := by
  simp [toBoolArray]

theorem toBoolArray_eq_self (l : List Bool) (n : Nat) (h : l.length = n) :
    toBoolArray l n = l := by
  apply List.ext_get
  · simp [toBoolArray, h]
  · intro i h1 h2
    simp only [toBoolArray, List.get_eq_getElem, List.getElem_map,
      List.getElem_range]
    rw [List.getD_eq_getElem?_getD, List.getElem?_eq_getElem h2]
    rfl

theorem getD_toBoolArray (l : List Bool) (n i : Nat) (h : i < n) :
    (toBoolArray l n).getD i false = l.getD i false := by
  rw [List.getD_eq_getElem?_getD,
    List.getElem?_eq_getElem (by simpa [toBoolArray] using h)]
  simp [toBoolArray, List.getElem_map, List.getElem_range]

theorem rev_bump_ne (r : Nat) (h : r < 2 ^ 32) : (r + 1) % 2 ^ 32 ≠ r := by
  by_cases h1 : r + 1 < 2 ^ 32
  · rw [Nat.mod_eq_of_lt h1]
    omega
  · have : r + 1 = 2 ^ 32 := by omega
    rw [this, Nat.mod_self]
    omega

theorem getD_range_map (f : Nat → Bool) (n i : Nat) (h : i < n) :
    ((List.range n).map f).getD i false = f i := by
  rw [List.getD_eq_getElem?_getD, List.getElem?_eq_getElem (by simpa using h)]
  simp

/-- Every event emitted by the part loop that is flagged as a
continuation belongs to a hit segment, hence is not a rest. -/
theorem emitParts_cont_not_rest (isHit : Bool) (parts : List Nat)
    (cursor remaining pieces : Nat) (e : NoteEvent)
    (he : e ∈ (emitParts isHit parts cursor remaining pieces).1) :
    e.isContinuation = true → e.isRest = false := by
  induction parts generalizing cursor remaining pieces with
  | nil => simp [emitParts] at he
  | cons p rest ih =>
    simp only [emitParts, List.mem_cons] at he
    rcases he with rfl | hmem
    · intro hc
      cases isHit with
      | false => simp at hc
      | true => rfl
    · exact ih _ _ _ hmem

/-- The chunk loop only emits continuation flags on hit segments. -/
theorem emitChunkLoop_cont_not_rest (isHit : Bool)
    (cursor remaining pieces fuel : Nat) (e : NoteEvent)
    (he : e ∈ emitChunkLoop isHit cursor remaining pieces fuel) :
    e.isContinuation = true → e.isRest = false := by
  induction fuel generalizing cursor remaining pieces with
  | zero => simp [emitChunkLoop] at he
  | succ n ih =>
    by_cases h0 : remaining = 0
    · simp [emitChunkLoop, h0] at he
    · simp only [emitChunkLoop, h0, if_neg, not_false_iff] at he
      rcases List.mem_append.mp he with h1 | h2
      · exact emitParts_cont_not_rest _ _ _ _ _ _ h1
      · exact ih _ _ _ h2

/-- The bar loop only emits continuation flags on hit segments. -/
theorem buildVoiceLoop_cont_not_rest (steps : List Bool) (pos fuel : Nat)
    (e : NoteEvent) (he : e ∈ buildVoiceLoop steps pos fuel) :
    e.isContinuation = true → e.isRest = false := by
  induction fuel generalizing pos with
  | zero => simp [buildVoiceLoop] at he
  | succ n ih =>
    by_cases hp : pos < STEPS_PER_BAR
    · simp only [buildVoiceLoop, hp, if_pos] at he
      by_cases hz :
          (if steps.getD pos false then nextHitIndex steps (pos + 1)
            else nextHitIndex steps pos) - pos = 0
      · rw [if_pos hz] at he
        exact ih _ he
      · rw [if_neg hz] at he
        rcases List.mem_append.mp he with h1 | h2
        · exact emitChunkLoop_cont_not_rest _ _ _ _ _ _ h1
        · exact ih _ h2
    · simp [buildVoiceLoop, hp] at he

/-! ## Claims -/

/-- C1, counterexample: after the two toggles of the scenario, the
transcription of track `bd` is NOT the claimed sequence `[hit:quarter@0,
rest:quarter@4, rest:quarter@8, rest:quarter@12]` (and `sn` is not its
claimed sequence either): a hit sustains until the next onset, so the
later quarters are hit continuations, not rests. -/
theorem C1_counterexample :
    ¬ (transcribeTrack scenarioState "bd" =
        [⟨0, 4, "q", false, false⟩, ⟨4, 4, "q", true, false⟩,
         ⟨8, 4, "q", true, false⟩, ⟨12, 4, "q", true, false⟩] ∧
       transcribeTrack scenarioState "sn" =
        [⟨0, 4, "q", true, false⟩, ⟨4, 4, "q", false, false⟩,
         ⟨8, 4, "q", true, false⟩, ⟨12, 4, "q", true, false⟩]) := by
  decide

/-- C1, amended: from the default state, after `toggleStep('bd', 0,
true)` and `toggleStep('sn', 4, true)`, track `bd` transcribes to a head
hit quarter at step 0 followed by three continuation hit quarters at
steps 4, 8, 12, and track `sn` to a rest quarter at step 0, a head hit
quarter at step 4, and continuation hit quarters at steps 8 and 12. -/
theorem C1_amended :
    transcribeTrack scenarioState "bd" =
      [⟨0, 4, "q", false, false⟩, ⟨4, 4, "q", false, true⟩,
       ⟨8, 4, "q", false, true⟩, ⟨12, 4, "q", false, true⟩] ∧
    transcribeTrack scenarioState "sn" =
      [⟨0, 4, "q", true, false⟩, ⟨4, 4, "q", false, false⟩,
       ⟨8, 4, "q", false, true⟩, ⟨12, 4, "q", false, true⟩] := by
  constructor <;> decide

/-- C2, counterexample: transcribing an all-true 16-step array does not
produce 12 continuation events — it produces none, because every hit
sustains only up to the immediately following onset. -/
theorem C2_counterexample :
    ¬ (((transcribe (List.replicate 16 true)).filter
        (fun e => e.isContinuation)).length = 12) := by
  decide

/-- C2, amended: for `stepsPerBeat = 4`, an all-true 16-step array
transcribes to 16 head hit events of sixteenth duration, one starting
at every step, and no event is marked as a continuation. -/
theorem C2_amended :
    transcribe (List.replicate 16 true) =
      (List.range 16).map (fun i => ⟨i, 1, "16", false, false⟩) := by
  decide

/-- C8: transcription never marks a rest event as a continuation (for
every input array, an emitted event with `isRest` set has
`isContinuation` clear), and an all-false 16-step array transcribes to
exactly 4 quarter-rest events, one per beat, in left-to-right order. -/
theorem C8_rest_decomposition :
    (∀ (steps : List Bool) (e : NoteEvent), e ∈ buildVoice steps →
      e.isRest = true → e.isContinuation = false) ∧
    transcribe (List.replicate 16 false) =
      [⟨0, 4, "q", true, false⟩, ⟨4, 4, "q", true, false⟩,
       ⟨8, 4, "q", true, false⟩, ⟨12, 4, "q", true, false⟩] := by
  constructor
  · intro steps e he hrest
    by_contra hc
    have hc1 : e.isContinuation = true := by
      cases h : e.isContinuation
      · exact absurd h hc
      · rfl
    have := buildVoiceLoop_cont_not_rest steps 0 (STEPS_PER_BAR + 1) e he hc1
    rw [this] at hrest
    cases hrest
  · decide

/-- Witness for C8 at a concrete run: the first quarter rest of the
all-false bar is in the output, is a rest, and the theorem yields that
it is not a continuation. -/
theorem C8_witness :
    (⟨0, 4, "q", true, false⟩ : NoteEvent) ∈
        buildVoice (List.replicate 16 false) ∧
    (⟨0, 4, "q", true, false⟩ : NoteEvent).isContinuation = false :=
  ⟨by decide,
    C8_rest_decomposition.1 (List.replicate 16 false) _ (by decide)
      (by decide)⟩

/-- C10: the transcription pipeline (`normalize16` then `buildVoice`)
depends only on the truthiness of indices 0–15 of the input array, for
any input lengths; and through a full state, two stored patterns that
agree on those indices for a track transcribe identically regardless of
every other state field, including the declared `steps` (which never
reaches the pipeline). -/
theorem C10_only_first_16 :
    (∀ (a b : List Bool),
      (∀ i < STEPS_PER_BAR, a.getD i false = b.getD i false) →
      transcribe a = transcribe b) ∧
    (∀ (s1 s2 : DrumState) (id : String),
      (∀ i < STEPS_PER_BAR,
        ((patLookup s1.pattern id).getD []).getD i false =
          ((patLookup s2.pattern id).getD []).getD i false) →
      transcribeTrack s1 id = transcribeTrack s2 id) := by
  have key : ∀ (a b : List Bool),
      (∀ i < STEPS_PER_BAR, a.getD i false = b.getD i false) →
      transcribe a = transcribe b := by
    intro a b h
    unfold transcribe
    have hn : normalize16 a = normalize16 b :=
      List.map_congr_left (fun i hi => h i (List.mem_range.mp hi))
    rw [hn]
  exact ⟨key, fun s1 s2 id h => key _ _ h⟩

/-- Witness for C10: a 1-element array and a 17-element array agreeing
on indices 0–15 (the witness pair differs at index 16) transcribe to
the same events. -/
theorem C10_witness :
    (∀ i < STEPS_PER_BAR,
      ([true] : List Bool).getD i false =
        (true :: (List.replicate 15 false ++ [true])).getD i false) ∧
    transcribe [true] =
      transcribe (true :: (List.replicate 15 false ++ [true])) :=
  ⟨by decide, C10_only_first_16.1 _ _ (by decide)⟩

/-- Evaluation of `toggleStep` on the in-bounds path when the forced
value differs from the stored one: the step is written and the revision
is bumped. -/
theorem toggleStep_changed (s : DrumState) (t : String) (q : ℚ) (v : Bool)
    (arr : List Bool) (hl : patLookup s.pattern (jsTrim t) = some arr)
    (h0 : 0 ≤ Rat.floor q) (h1 : Rat.floor q < (s.steps : Int))
    (hch : arr.getD (Rat.floor q).toNat false ≠ v) :
    toggleStep s t (some q) (some v) =
      (touchPattern
        { s with pattern := (patSet s.pattern (jsTrim t)
            (jsArraySet arr (Rat.floor q).toNat v)) }, v) := by
  simp only [toggleStep, hl]
  rw [if_neg (by omega)]
  simp only [Option.getD_some, getD_jsArraySet_self]
  rw [if_pos hch]

/-- Evaluation of `toggleStep` on the in-bounds path when the forced
value equals the stored one: the step is rewritten in place and the
revision is left alone. -/
theorem toggleStep_unchanged (s : DrumState) (t : String) (q : ℚ) (v : Bool)
    (arr : List Bool) (hl : patLookup s.pattern (jsTrim t) = some arr)
    (h0 : 0 ≤ Rat.floor q) (h1 : Rat.floor q < (s.steps : Int))
    (hch : arr.getD (Rat.floor q).toNat false = v) :
    toggleStep s t (some q) (some v) =
      ({ s with pattern := (patSet s.pattern (jsTrim t)
          (jsArraySet arr (Rat.floor q).toNat v)) }, v) := by
  simp only [toggleStep, hl]
  rw [if_neg (by omega)]
  simp only [Option.getD_some, getD_jsArraySet_self]
  rw [if_neg (by rw [hch]; exact fun h => h rfl)]

/-- A forcing toggle that stores the value already present leaves the
revision counter alone (shared helper). -/
theorem toggleStep_keeps_rev (s : DrumState) (t : String) (q : ℚ)
    (arr : List Bool) (hl : patLookup s.pattern (jsTrim t) = some arr)
    (h0 : 0 ≤ Rat.floor q) (h1 : Rat.floor q < (s.steps : Int))
    (hst : arr.getD (Rat.floor q).toNat false = true) :
    (toggleStep s t (some q) (some true)).1.patternRevision
      = s.patternRevision := by
  rw [toggleStep_unchanged s t q true arr hl h0 h1 hst]

/-- Evaluation of `toggleStep` on the silent no-op paths (shared
helper): unknown track, non-finite index, or floored index out of
range. -/
theorem toggleStep_skip (s : DrumState) (trackId : String)
    (stepIndex : Option ℚ) (forceValue : Option Bool)
    (h : patLookup s.pattern (jsTrim trackId) = none ∨ stepIndex = none ∨
      ∃ q, stepIndex = some q ∧
        (Rat.floor q < 0 ∨ (s.steps : Int) ≤ Rat.floor q)) :
    toggleStep s trackId stepIndex forceValue = (s, false) := by
  rcases h with h | h | ⟨q, rfl, hq⟩
  · simp [toggleStep, h]
  · subst h
    cases hl : patLookup s.pattern (jsTrim trackId) <;> simp [toggleStep, hl]
  · cases hl : patLookup s.pattern (jsTrim trackId) with
    | none => simp [toggleStep, hl]
    | some arr =>
      simp only [toggleStep, hl]
      rw [if_pos hq]

/-- C9, counterexample: `setBpm(0)` does not store the clamp of 0 into
`[40, 240]` (which would be 40): the falsy input falls back to the
default tempo 90 before clamping. -/
theorem C9_counterexample :
    ¬ ((setBpm initialState 0).1.bpm = max 40 (min 240 (0 : ℚ))) := by
  decide

/-- C9, amended: for every finite numeric `v`, `setBpm(v)` stores and
returns `max(40, min(240, v))` unless `v` is the falsy value 0, which
is replaced by the default 90 before clamping; the call never changes
`patternRevision` or the pattern. -/
theorem C9_clamp (s : DrumState) (v : ℚ) :
    (setBpm s v).1.bpm = (if v = 0 then (90 : ℚ) else max 40 (min 240 v)) ∧
    (setBpm s v).2 = (setBpm s v).1.bpm ∧
    (setBpm s v).1.patternRevision = s.patternRevision ∧
    (setBpm s v).1.pattern = s.pattern := by
  refine ⟨?_, rfl, rfl, rfl⟩
  by_cases h : v = 0
  · show clampNum (jsOrDefault v 90) 40 240 = _
    rw [if_pos h]
    simp only [jsOrDefault, clampNum, if_pos h]
    norm_num
  · show clampNum (jsOrDefault v 90) 40 240 = _
    rw [if_neg h]
    simp only [jsOrDefault, clampNum, if_neg h]

/-- C7, counterexample: `5/2` is a finite non-integer step index, yet
`toggleStep('bd', 5/2, true)` on the default state is not the silent
no-op the claim requires — the index is floored to 2 and the step is
toggled (return value `true`, state mutated). -/
theorem C7_counterexample :
    q52.den ≠ 1 ∧
    toggleStep initialState "bd" (some q52) (some true) ≠
      (initialState, false) := by
  constructor
  · decide
  · decide

/-- C7, amended: for every trackId with no entry in the stored pattern,
and for every stepIndex that is non-finite or whose floor lies outside
`[0, steps)`, `toggleStep` returns the sentinel `false` and leaves the
whole state unchanged; a finite non-integer index inside the range is
floored and performs the toggle. -/
theorem C7_noop (s : DrumState) (trackId : String) (stepIndex : Option ℚ)
    (forceValue : Option Bool)
    (h : patLookup s.pattern (jsTrim trackId) = none ∨ stepIndex = none ∨
      ∃ q, stepIndex = some q ∧
        (Rat.floor q < 0 ∨ (s.steps : Int) ≤ Rat.floor q)) :
    toggleStep s trackId stepIndex forceValue = (s, false) :=
  toggleStep_skip s trackId stepIndex forceValue h

/-- Witness for C7: toggling the unknown track `zz` is a silent no-op. -/
theorem C7_witness :
    toggleStep initialState "zz" (some 0) none = (initialState, false) :=
  C7_noop initialState "zz" (some 0) none (Or.inl (by decide))

/-- C3, counterexample: a `set` call whose pattern patch is exactly the
stored pattern — equal in content, no structural change — still bumps
`patternRevision`: the source bumps on the mere presence of a `pattern`
key in the patch. -/
theorem C3_counterexample :
    (set initialState { pattern := some initialState.pattern }).patternRevision
      ≠ initialState.patternRevision := by
  decide

/-- C3, amended: calling `toggleStep(t, i, true)` a second time never
changes the revision (the second write stores the value already
present), and the first call on a stored `false` at a valid index bumps
the revision and returns `true`; however, a `set` call whose patch
carries a `pattern` key and causes no structural change always bumps
the revision, even when the patch content equals the stored pattern. -/
theorem C3_revision_discipline :
    (∀ (s : DrumState) (t : String) (i : Option ℚ),
      (toggleStep (toggleStep s t i (some true)).1 t i
          (some true)).1.patternRevision
        = (toggleStep s t i (some true)).1.patternRevision) ∧
    (∀ (s : DrumState) (t : String) (q : ℚ) (arr : List Bool),
      patLookup s.pattern (jsTrim t) = some arr →
      0 ≤ Rat.floor q → Rat.floor q < (s.steps : Int) →
      arr.getD (Rat.floor q).toNat false = false →
      (toggleStep s t (some q) (some true)).1.patternRevision
          = (s.patternRevision + 1) % 2 ^ 32 ∧
        (toggleStep s t (some q) (some true)).2 = true) ∧
    (∀ (s : DrumState) (p : Patch),
      p.pattern.isSome = true →
      (ensureStateShape (applyPatch s p)).steps = s.steps →
      getTrackIds (ensureStateShape (applyPatch s p)).tracks
          = getTrackIds s.tracks →
      (set s p).patternRevision
        = ((ensureStateShape (applyPatch s p)).patternRevision + 1) % 2 ^ 32) := by
  refine ⟨?_, ?_, ?_⟩
  · intro s t i
    cases hl : patLookup s.pattern (jsTrim t) with
    | none =>
      rw [toggleStep_skip s t i (some true) (Or.inl hl)]
      rw [toggleStep_skip s t i (some true) (Or.inl hl)]
    | some arr =>
      cases i with
      | none =>
        rw [toggleStep_skip s t none (some true) (Or.inr (Or.inl rfl))]
        rw [toggleStep_skip s t none (some true) (Or.inr (Or.inl rfl))]
      | some q =>
        by_cases hg : Rat.floor q < 0 ∨ (s.steps : Int) ≤ Rat.floor q
        · rw [toggleStep_skip s t (some q) (some true)
            (Or.inr (Or.inr ⟨q, rfl, hg⟩))]
          rw [toggleStep_skip s t (some q) (some true)
            (Or.inr (Or.inr ⟨q, rfl, hg⟩))]
        · push_neg at hg
          obtain ⟨h0, h1⟩ := hg
          have hl2 : patLookup
              (patSet s.pattern (jsTrim t)
                (jsArraySet arr (Rat.floor q).toNat true)) (jsTrim t)
              = some (jsArraySet arr (Rat.floor q).toNat true) := by
            rw [patLookup_patSet_self, hl]
            rfl
          by_cases hch : arr.getD (Rat.floor q).toNat false = true
          · rw [toggleStep_unchanged s t q true arr hl h0 h1 hch]
            exact toggleStep_keeps_rev _ t q _ hl2 h0 h1
              (getD_jsArraySet_self arr (Rat.floor q).toNat true)
          · rw [toggleStep_changed s t q true arr hl h0 h1 hch]
            exact toggleStep_keeps_rev _ t q _ hl2 h0 h1
              (getD_jsArraySet_self arr (Rat.floor q).toNat true)
  · intro s t q arr hl h0 h1 hfalse
    rw [toggleStep_changed s t q true arr hl h0 h1
      (by rw [hfalse]; exact Bool.false_ne_true)]
    exact ⟨rfl, rfl⟩
  · intro s p hp hsteps htr
    simp only [set]
    rw [if_neg (by push_neg; exact ⟨hsteps.symm, htr.symm⟩)]
    rw [if_pos hp]
    rfl

/-- Witness for C3: from the default state (step `bd[0]` stored as
`false`), the first forcing toggle bumps the revision. -/
theorem C3_witness :
    (toggleStep initialState "bd" (some 0) (some true)).1.patternRevision
      = (initialState.patternRevision + 1) % 2 ^ 32 :=
  (C3_revision_discipline.2.1 initialState "bd" 0 (List.replicate 16 false)
    (by decide) (by decide) (by decide) (by decide)).1

/-- C6: `setCurrentStep` writes only the cursor — pattern, revision,
tracks, resolution factors, steps and tempo are all untouched — hence
any sequence of `setCurrentStep` calls between two frames leaves the
revision where the gate last saw it and the gate performs zero
transcriptions, while a single value-changing `toggleStep` in the same
window makes the single per-frame gate run transcribe exactly once
(and the following run, with the revision synced, transcribe again
zero times). -/
theorem C6_cursor_only_and_gate :
    (∀ (s : DrumState) (i : Option ℚ),
      (setCurrentStep s i).1.pattern = s.pattern ∧
      (setCurrentStep s i).1.patternRevision = s.patternRevision ∧
      (setCurrentStep s i).1.tracks = s.tracks ∧
      (setCurrentStep s i).1.bars = s.bars ∧
      (setCurrentStep s i).1.beatsPerBar = s.beatsPerBar ∧
      (setCurrentStep s i).1.stepsPerBeat = s.stepsPerBeat ∧
      (setCurrentStep s i).1.steps = s.steps ∧
      (setCurrentStep s i).1.bpm = s.bpm) ∧
    (∀ (s : DrumState) (l : List (Option ℚ)),
      renderGate (s.patternRevision : Int)
          (l.foldl (fun st i => (setCurrentStep st i).1) s)
        = ((s.patternRevision : Int), false)) ∧
    (∀ (s : DrumState) (t : String) (q : ℚ) (v : Bool) (arr : List Bool),
      patLookup s.pattern (jsTrim t) = some arr →
      0 ≤ Rat.floor q → Rat.floor q < (s.steps : Int) →
      arr.getD (Rat.floor q).toNat false ≠ v →
      s.patternRevision < 2 ^ 32 →
      (renderGate (s.patternRevision : Int)
          (toggleStep s t (some q) (some v)).1).2 = true ∧
      (renderGate
          ((toggleStep s t (some q) (some v)).1.patternRevision : Int)
          (toggleStep s t (some q) (some v)).1).2 = false) := by
  refine ⟨?_, ?_, ?_⟩
  · intro s i
    exact ⟨rfl, rfl, rfl, rfl, rfl, rfl, rfl, rfl⟩
  · intro s l
    induction l generalizing s with
    | nil => simp [renderGate]
    | cons i rest ih => exact ih ((setCurrentStep s i).1)
  · intro s t q v arr hl h0 h1 hch hrev
    constructor
    · have hrv : (toggleStep s t (some q) (some v)).1.patternRevision
          = (s.patternRevision + 1) % 2 ^ 32 := by
        rw [toggleStep_changed s t q v arr hl h0 h1 hch]
        rfl
      have hne : ¬ (((toggleStep s t (some q) (some v)).1.patternRevision
          : Int) = (s.patternRevision : Int)) := by
        rw [hrv]
        exact_mod_cast rev_bump_ne s.patternRevision hrev
      unfold renderGate
      rw [if_neg hne]
    · simp [renderGate]

/-- Witness for C6: toggling `bd[0]` on from the default state makes
the next gate run transcribe. -/
theorem C6_witness :
    (renderGate (initialState.patternRevision : Int)
        (toggleStep initialState "bd" (some 0) (some true)).1).2 = true :=
  (C6_cursor_only_and_gate.2.2 initialState "bd" 0 true
    (List.replicate 16 false) (by decide) (by decide) (by decide)
    (by decide) (by decide)).1

/-- Lookup of a track entry after `normalizePattern`. -/
theorem patLookup_normalizePattern (src : List (String × List Bool))
    (tracks : List Track) (steps : Nat) (t : Track) (ht : t ∈ tracks) :
    patLookup (normalizePattern src tracks steps) t.id
      = some (toBoolArray ((patLookup src t.id).getD []) steps) :=
  patLookup_map_track tracks
    (fun id => toBoolArray ((patLookup src id).getD []) steps) t ht

/-- Lookup of a track entry after `resizePatternKeepNotes`. -/
theorem patLookup_resize (prev : List (String × List Bool))
    (tracks : List Track) (pSteps nSteps : Nat) (t : Track) (ht : t ∈ tracks) :
    patLookup (resizePatternKeepNotes prev tracks pSteps nSteps) t.id
      = some ((List.range nSteps).map (fun i =>
          if i < min pSteps nSteps then
            ((patLookup prev t.id).getD []).getD i false
          else false)) :=
  patLookup_map_track tracks
    (fun id => (List.range nSteps).map (fun i =>
      if i < min pSteps nSteps then
        ((patLookup prev id).getD []).getD i false
      else false)) t ht

/-- The step count recomputed by `ensureStateShape`. -/
theorem ensure_steps (s : DrumState) :
    (ensureStateShape s).steps
      = computeSteps (max 1 s.beatsPerBar) (max 1 s.stepsPerBeat)
          (max 1 s.bars) := rfl

/-- `computeSteps` already clamps each factor, so clamping beforehand
changes nothing. -/
theorem computeSteps_max (a b c : Int) :
    computeSteps (max 1 a) (max 1 b) (max 1 c) = computeSteps a b c := by
  have hmax : ∀ x : Int, max 1 (max 1 x) = max 1 x := fun x => by
    rw [← max_assoc, max_self]
  simp only [computeSteps, hmax]

/-- `ensureStateShape` keeps the step count written by
`setResolutionPre`. -/
theorem ensure_pre_steps (s : DrumState) (b bpb spb : Option Int) :
    (ensureStateShape (setResolutionPre s b bpb spb)).steps
      = (setResolutionPre s b bpb spb).steps := by
  rw [ensure_steps]
  exact computeSteps_max _ _ _

/-- Full re-normalization always restores the shape invariant. -/
theorem WF_ensureStateShape (s : DrumState) : WF (ensureStateShape s) := by
  have hA : (0 : Int) < max 1 s.beatsPerBar :=
    lt_of_lt_of_le zero_lt_one (le_max_left 1 _)
  have hB : (0 : Int) < max 1 s.stepsPerBeat :=
    lt_of_lt_of_le zero_lt_one (le_max_left 1 _)
  have hC : (0 : Int) < max 1 s.bars :=
    lt_of_lt_of_le zero_lt_one (le_max_left 1 _)
  refine ⟨le_max_left 1 _, le_max_left 1 _, le_max_left 1 _, ?_, ?_, ?_, ?_,
    le_max_left 40 _, ?_⟩
  · show ((computeSteps (max 1 s.beatsPerBar) (max 1 s.stepsPerBeat)
        (max 1 s.bars) : Nat) : Int) = _
    rw [computeSteps_max]
    show ((max 1 s.beatsPerBar * max 1 s.stepsPerBeat
        * max 1 s.bars).toNat : Int) = _
    rw [Int.toNat_of_nonneg (mul_pos (mul_pos hA hB) hC).le]
    show max 1 s.beatsPerBar * max 1 s.stepsPerBeat * max 1 s.bars
      = max 1 s.bars * max 1 s.beatsPerBar * max 1 s.stepsPerBeat
    ring
  · intro t ht
    show Option.map List.length
        (patLookup (normalizePattern s.pattern (normalizeTracks s.tracks)
          (ensureStateShape s).steps) t.id)
      = some (ensureStateShape s).steps
    rw [patLookup_normalizePattern s.pattern (normalizeTracks s.tracks)
      (ensureStateShape s).steps t ht]
    simp [length_toBoolArray]
  · show -1 ≤ (if s.currentStep < -1 ∨
        ((ensureStateShape s).steps : Int) ≤ s.currentStep then -1
      else s.currentStep)
    split_ifs with h
    · exact le_refl _
    · push_neg at h
      exact h.1
  · show (if s.currentStep < -1 ∨
        ((ensureStateShape s).steps : Int) ≤ s.currentStep then -1
      else s.currentStep) < ((ensureStateShape s).steps : Int)
    split_ifs with h
    · have : (0 : Int) ≤ ((ensureStateShape s).steps : Int) :=
        Int.natCast_nonneg _
      omega
    · push_neg at h
      exact h.2
  · show max 40 (min 240 (jsOrDefault s.bpm 90)) ≤ 240
    exact max_le (by norm_num) (min_le_left _ _)

/-- Bumping the revision never disturbs the shape invariant. -/
theorem WF_touchPattern (s : DrumState) (h : WF s) : WF (touchPattern s) := h

/-- Overwriting one pattern entry with an array of the right length
preserves the shape invariant. -/
theorem WF_patSet (s : DrumState) (h : WF s) (id : String)
    (arr2 : List Bool)
    (hlen : ∀ t ∈ s.tracks, t.id = id → arr2.length = s.steps) :
    WF { s with pattern := patSet s.pattern id arr2 } := by
  obtain ⟨h1, h2, h3, h4, h5, h6, h7, h8, h9⟩ := h
  refine ⟨h1, h2, h3, h4, ?_, h6, h7, h8, h9⟩
  intro t ht
  by_cases hid : t.id = id
  · rw [hid, patLookup_patSet_self]
    have h5t := h5 t ht
    rw [hid] at h5t
    cases hx : patLookup s.pattern id with
    | none =>
      rw [hx] at h5t
      cases h5t
    | some a =>
      simp only [Option.map_some']
      rw [hlen t ht hid]
  · rw [patLookup_patSet_ne _ _ _ _ hid]
    exact h5 t ht

/-- `toggleStep` preserves the shape invariant. -/
theorem WF_toggleStep (s : DrumState) (t : String) (i : Option ℚ)
    (fv : Option Bool) (h : WF s) : WF (toggleStep s t i fv).1 := by
  cases i with
  | none =>
    rw [toggleStep_skip s t none fv (Or.inr (Or.inl rfl))]
    exact h
  | some q =>
    cases hl : patLookup s.pattern (jsTrim t) with
    | none =>
      rw [toggleStep_skip s t (some q) fv (Or.inl hl)]
      exact h
    | some arr =>
      by_cases hg : Rat.floor q < 0 ∨ (s.steps : Int) ≤ Rat.floor q
      · rw [toggleStep_skip s t (some q) fv (Or.inr (Or.inr ⟨q, rfl, hg⟩))]
        exact h
      · push_neg at hg
        obtain ⟨h0, h1⟩ := hg
        have hlen : ∀ u ∈ s.tracks, u.id = jsTrim t →
            (jsArraySet arr (Rat.floor q).toNat
              (fv.getD (!arr.getD (Rat.floor q).toNat false))).length
              = s.steps := by
          intro u hu hid
          have h5u := h.2.2.2.2.1 u hu
          rw [hid, hl] at h5u
          simp only [Option.map_some', Option.some.injEq] at h5u
          rw [length_jsArraySet_of_lt _ _ _ (by omega)]
          exact h5u
        simp only [toggleStep, hl]
        rw [if_neg (by omega)]
        split_ifs with hch
        · exact WF_touchPattern _ (WF_patSet s h (jsTrim t) _ hlen)
        · exact WF_patSet s h (jsTrim t) _ hlen

/-- `set` preserves the shape invariant unconditionally. -/
theorem WF_set (s : DrumState) (p : Patch) : WF (set s p) := by
  simp only [set]
  split_ifs with h1 h2
  · exact WF_touchPattern _ (WF_ensureStateShape _)
  · exact WF_touchPattern _ (WF_ensureStateShape _)
  · exact WF_ensureStateShape _

/-- `update` preserves the shape invariant unconditionally. -/
theorem WF_update (s : DrumState) (f : DrumState → DrumState) :
    WF (update s f) := by
  simp only [update]
  split_ifs with h1
  · exact WF_touchPattern _ (WF_ensureStateShape _)
  · exact WF_ensureStateShape _

/-- `setTracks` preserves the shape invariant unconditionally. -/
theorem WF_setTracks (s : DrumState) (ts : List Track) (pp : Bool) :
    WF (setTracks s ts pp) := by
  simp only [setTracks]
  split_ifs <;> exact WF_touchPattern _ (WF_ensureStateShape _)

/-- `setCurrentStep` preserves the shape invariant. -/
theorem WF_setCurrentStep (s : DrumState) (i : Option ℚ) (h : WF s) :
    WF (setCurrentStep s i).1 := by
  obtain ⟨h1, h2, h3, h4, h5, h6, h7, h8, h9⟩ := h
  refine ⟨h1, h2, h3, h4, h5, ?_, ?_, h8, h9⟩
  · show -1 ≤ (setCurrentStep s i).1.currentStep
    cases i with
    | none => exact le_refl _
    | some q =>
      show -1 ≤ (if 0 ≤ Rat.floor q ∧ Rat.floor q < (s.steps : Int)
        then Rat.floor q else -1)
      split_ifs with hx
      · omega
      · exact le_refl _
  · show (setCurrentStep s i).1.currentStep < (s.steps : Int)
    cases i with
    | none =>
      show (-1 : Int) < (s.steps : Int)
      omega
    | some q =>
      show (if 0 ≤ Rat.floor q ∧ Rat.floor q < (s.steps : Int)
        then Rat.floor q else -1) < (s.steps : Int)
      split_ifs with hx
      · exact hx.2
      · omega

/-- `setBpm` preserves the shape invariant. -/
theorem WF_setBpm (s : DrumState) (v : ℚ) (h : WF s) : WF (setBpm s v).1 := by
  obtain ⟨h1, h2, h3, h4, h5, h6, h7, h8, h9⟩ := h
  refine ⟨h1, h2, h3, h4, h5, h6, h7, le_max_left 40 _, ?_⟩
  show max 40 (min 240 (jsOrDefault v 90)) ≤ 240
  exact max_le (by norm_num) (min_le_left _ _)

/-- C5: after every public mutator of the store returns — `set`,
`update`, `resetPattern`, `setPattern`, `toggleStep`, `setTracks`,
`setResolution`, `setCurrentStep`, `setBpm` — the state satisfies the
shape invariant `WF`: `steps = bars * beatsPerBar * stepsPerBeat`,
every listed track has a pattern entry of length `steps`, the cursor
lies in `[-1, steps)`, and the tempo lies in `[40, 240]`.  The
structural mutators restore it from any state; the point mutators
(`toggleStep`, `setCurrentStep`, `setBpm`) preserve it, and the initial
state (where the induction starts) satisfies it. -/
theorem C5_shape_invariants :
    WF initialState ∧
    (∀ (s : DrumState) (p : Patch), WF (set s p)) ∧
    (∀ (s : DrumState) (f : DrumState → DrumState), WF (update s f)) ∧
    (∀ (s : DrumState) (kp : Bool), WF (resetPattern s kp)) ∧
    (∀ (s : DrumState) (np : List (String × List Bool)) (rp : Bool),
      WF (setPattern s np rp)) ∧
    (∀ (s : DrumState) (t : String) (i : Option ℚ) (fv : Option Bool),
      WF s → WF (toggleStep s t i fv).1) ∧
    (∀ (s : DrumState) (ts : List Track) (pp : Bool),
      WF (setTracks s ts pp)) ∧
    (∀ (s : DrumState) (b bpb spb : Option Int),
      WF (setResolution s b bpb spb)) ∧
    (∀ (s : DrumState) (i : Option ℚ), WF s → WF (setCurrentStep s i).1) ∧
    (∀ (s : DrumState) (v : ℚ), WF s → WF (setBpm s v).1) :=
  ⟨WF_ensureStateShape _,
   WF_set,
   WF_update,
   fun _ _ => WF_touchPattern _ (WF_ensureStateShape _),
   fun _ _ _ => WF_touchPattern _ (WF_ensureStateShape _),
   WF_toggleStep,
   WF_setTracks,
   fun _ _ _ _ => WF_touchPattern _ (WF_ensureStateShape _),
   WF_setCurrentStep,
   WF_setBpm⟩

/-- Witness for C5: the invariant holds on the default state and is
kept by a concrete toggle. -/
theorem C5_witness :
    WF (toggleStep initialState "bd" (some 0) (some true)).1 :=
  C5_shape_invariants.2.2.2.2.2.1 initialState "bd" (some 0) (some true)
    (by decide)

/-- C4: for every stored pattern and every resolution change (on a
state whose track list is normalized, as every state produced by the
store is), `setResolution` gives each track a fresh array of the new
length whose overlapping prefix `[0, min(oldSteps, newSteps))` keeps
the stored boolean values and whose remaining indices are all `false`;
in particular `[1,0,1,0]` at `steps = 4` resized to 6 becomes
`[1,0,1,0,0,0]`, and shrinking that to 3 gives `[1,0,1]`. -/
theorem C4_resize_preserves :
    (∀ (s : DrumState) (b bpb spb : Option Int) (t : Track),
      normalizeTracks s.tracks = s.tracks → t ∈ s.tracks →
      ∃ arr, patLookup (setResolution s b bpb spb).pattern t.id = some arr ∧
        arr.length = (setResolution s b bpb spb).steps ∧
        ∀ i, i < (setResolution s b bpb spb).steps →
          arr.getD i false =
            if i < min s.steps (setResolution s b bpb spb).steps then
              ((patLookup s.pattern t.id).getD []).getD i false
            else false) ∧
    patLookup (setResolution s4 none (some 2) (some 3)).pattern "bd" =
      some [true, false, true, false, false, false] ∧
    patLookup (setResolution (setResolution s4 none (some 2) (some 3))
        none (some 3) (some 1)).pattern "bd" =
      some [true, false, true] := by
  refine ⟨?_, by decide, by decide⟩
  intro s b bpb spb t hn ht
  have ht' : t ∈ normalizeTracks s.tracks := by
    rw [hn]
    exact ht
  have hsteps : (setResolution s b bpb spb).steps
      = (setResolutionPre s b bpb spb).steps := ensure_pre_steps s b bpb spb
  have hlook : patLookup (setResolution s b bpb spb).pattern t.id
      = some (toBoolArray
          ((patLookup (setResolutionPre s b bpb spb).pattern t.id).getD [])
          (ensureStateShape (setResolutionPre s b bpb spb)).steps) :=
    patLookup_normalizePattern (setResolutionPre s b bpb spb).pattern
      (normalizeTracks s.tracks)
      (ensureStateShape (setResolutionPre s b bpb spb)).steps t ht'
  have hres : patLookup (setResolutionPre s b bpb spb).pattern t.id
      = some ((List.range (setResolutionPre s b bpb spb).steps).map (fun i =>
          if i < min s.steps (setResolutionPre s b bpb spb).steps then
            ((patLookup s.pattern t.id).getD []).getD i false
          else false)) :=
    patLookup_resize s.pattern s.tracks s.steps
      (setResolutionPre s b bpb spb).steps t ht
  rw [hres, ensure_pre_steps] at hlook
  simp only [Option.getD_some] at hlook
  rw [toBoolArray_eq_self _ _ (by simp)] at hlook
  refine ⟨_, hlook, ?_, ?_⟩
  · rw [hsteps]
    simp
  · intro i hi
    rw [hsteps] at hi ⊢
    rw [getD_range_map _ _ _ hi]

/-- Witness for C4 at a concrete resize: on the 4-step single-track
state, growing to 6 steps keeps the prefix and zero-fills the tail. -/
theorem C4_witness :
    normalizeTracks s4.tracks = s4.tracks ∧
    (⟨"bd", "Bombo", none⟩ : Track) ∈ s4.tracks ∧
    ∃ arr,
      patLookup (setResolution s4 none (some 2) (some 3)).pattern "bd"
          = some arr ∧
      arr.length = (setResolution s4 none (some 2) (some 3)).steps ∧
      ∀ i, i < (setResolution s4 none (some 2) (some 3)).steps →
        arr.getD i false =
          if i < min s4.steps (setResolution s4 none (some 2) (some 3)).steps
          then ((patLookup s4.pattern "bd").getD []).getD i false
          else false :=
  ⟨by decide, by decide,
    C4_resize_preserves.1 s4 none (some 2) (some 3) ⟨"bd", "Bombo", none⟩
      (by decide) (by decide)⟩

end DrumBox
